import Mathlib

/-!
# Verification of the Expense-Tracker storage layer (`src/database.py`)

A shallow embedding of the SQLite-backed storage layer of the expense
tracker.  The on-disk store is modelled as a `DB` value holding the rows of
the three tables (`users`, `expenses`, `budgets`) together with the
`AUTOINCREMENT` counters of the two tables that have integer primary keys.
Each Python function of `database.py` becomes a Lean function on `DB`;
SQL statements are translated statement-by-statement:

* `INSERT` appends a row (checking the `CHECK(amount >= 0)` constraint,
  whose violation is modelled as `Except.error`);
* `SELECT ... WHERE` filters the row list with the translated predicate;
  the truthiness-guarded dynamic `WHERE` clauses of
  `get_expenses_df`/`get_top_category` are reproduced exactly (a filter is
  added only when the Python value is truthy: a non-`None`, non-empty
  string / non-empty list);
* `ORDER BY date ASC, id ASC` is modelled with `List.insertionSort` on the
  corresponding lexicographic order (any sorting algorithm realising the
  order is a faithful model of `ORDER BY`);
* `UPDATE`/`DELETE ... WHERE` map/filter the row list;
* `ON CONFLICT(user_id, month) DO UPDATE` replaces the matching rows when
  one exists and appends otherwise.

`TEXT` columns are `String`, compared with the structural byte order
`strLt`/`strLe` below, which is exactly how SQLite compares `TEXT`
(`memcmp` on the UTF-8 bytes, i.e. lexicographic comparison of the code
points for the strings involved here).  `REAL` amounts are modelled as
exact integers `ℤ`: every amount handled by the claims is an exact sum,
and IEEE-double rounding is outside the model.  Row ids are `Nat`.  The
sources of nondeterminism of `create_user` (`secrets.token_hex` and the
current timestamp) are passed in as explicit arguments.
-/

namespace ExpenseTracker

/-- Python's `str.strip()`: removes leading and trailing whitespace. -/
def pyStrip (s : String) : String :=
  ⟨((s.data.dropWhile Char.isWhitespace).reverse.dropWhile Char.isWhitespace).reverse⟩

/-- Lexicographic strict order on code-point lists: the order `memcmp`
induces on the UTF-8 encodings. -/
def charListLt : List Char → List Char → Bool
  | _, [] => false
  | [], _ :: _ => true
  | a :: as, b :: bs =>
    decide (a.toNat < b.toNat) || (a.toNat == b.toNat && charListLt as bs)

/-- SQLite's `TEXT` comparison `a < b`. -/
def strLt (a b : String) : Bool := charListLt a.data b.data

/-- SQLite's `TEXT` comparison `a <= b`. -/
def strLe (a b : String) : Bool := !strLt b a

/-- A row of the `users` table:
`(id INTEGER PRIMARY KEY AUTOINCREMENT, username TEXT UNIQUE, password_hash TEXT, salt TEXT, created_at TEXT)`. -/
structure User where
  id : Nat
  username : String
  password_hash : String
  salt : String
  created_at : String
deriving Repr, DecidableEq

/-- A row of the `expenses` table:
`(id INTEGER PRIMARY KEY AUTOINCREMENT, user_id INTEGER, date TEXT, category TEXT, amount REAL CHECK(amount >= 0), note TEXT)`. -/
structure Expense where
  id : Nat
  user_id : Nat
  date : String
  category : String
  amount : ℤ
  note : String
deriving Repr, DecidableEq

/-- A row of the `budgets` table:
`(user_id INTEGER, month TEXT, amount REAL CHECK(amount >= 0), PRIMARY KEY(user_id, month))`. -/
structure Budget where
  user_id : Nat
  month : String
  amount : ℤ
deriving Repr, DecidableEq

/-- The state of the single-file store: the rows of the three tables plus
the `AUTOINCREMENT` counters for `users.id` and `expenses.id`. -/
structure DB where
  users : List User
  expenses : List Expense
  budgets : List Budget
  next_user_id : Nat
  next_expense_id : Nat
deriving Repr, DecidableEq

/-- The store right after `init_db` on a fresh file: all tables empty,
`AUTOINCREMENT` counters at 1 (SQLite assigns 1 to the first row). -/
def DB.empty : DB := ⟨[], [], [], 1, 1⟩

/-- Modelled from the spec: `_hash_password` is
`hashlib.sha256((salt + password).encode()).hexdigest()`; the spec fixes
only the observable contract of the hashing scheme ("same input password +
stored salt ⇒ same verifier, used for equality check at login"), so the
digest is modelled as the concatenation of salt and password — deterministic
and, for a fixed salt, injective in the password (SHA-256 collisions are
assumed absent). -/
def _hash_password (password : String) (salt : String) : String :=
  salt ++ password

/-- `create_user(username, password)`: trims the username, returns `none`
(and leaves the store unchanged) when the trimmed username is empty, the
password is empty, or a user with that username already exists; otherwise
inserts the new user row and returns its fresh id.  The random salt and the
creation timestamp are explicit arguments (they come from
`secrets.token_hex(16)` and `pd.Timestamp.utcnow()` in the source). -/
def create_user (db : DB) (username password : String) (salt created_at : String) :
    Option Nat × DB :=
  let username := pyStrip username
  if username = "" ∨ password = "" then (none, db)
  else if db.users.any (fun u => u.username == username) then (none, db)
  else
    let user_id := db.next_user_id
    let password_hash := _hash_password password salt
    (some user_id,
      { db with
        users := db.users ++
          [{ id := user_id, username := username, password_hash := password_hash,
             salt := salt, created_at := created_at }],
        next_user_id := user_id + 1 })

/-- `authenticate_user(username, password)`: looks up the row with the
trimmed username (`fetchone` on a `UNIQUE` column: the first match), then
compares the recomputed salted hash with the stored one. -/
def authenticate_user (db : DB) (username password : String) : Option Nat :=
  match db.users.find? (fun u => u.username == pyStrip username) with
  | none => none
  | some u => if _hash_password password u.salt == u.password_hash then some u.id else none

/-- `get_user_by_id(user_id)`: returns `(id, username, created_at)` of the
matching row, or `none`. -/
def get_user_by_id (db : DB) (user_id : Nat) : Option (Nat × String × String) :=
  (db.users.find? (fun u => u.id == user_id)).map (fun u => (u.id, u.username, u.created_at))

/-- `add_expense(user_id, date, category, amount, note)`: unconditional
`INSERT`; the `CHECK(amount >= 0)` column constraint makes the statement
raise (modelled as `Except.error`) on a negative amount, otherwise the row
is appended and `cur.lastrowid` — the fresh id — is returned. -/
def add_expense (db : DB) (user_id : Nat) (date category : String) (amount : ℤ)
    (note : String) : Except Unit (Nat × DB) :=
  if amount < 0 then .error ()
  else
    let rowid := db.next_expense_id
    .ok (rowid,
      { db with
        expenses := db.expenses ++
          [{ id := rowid, user_id := user_id, date := date, category := category,
             amount := amount, note := note }],
        next_expense_id := rowid + 1 })

/-- The dynamically-built `WHERE` clause of `get_expenses_df` (also used,
without the category part, by `get_top_category`): `user_id = ?` always;
`date >= ?` only when `start_date` is truthy (not `None` and not `""`);
`date <= ?` only when `end_date` is truthy; `category IN (...)` only when
`categories` is truthy (not `None` and not the empty list). -/
def expense_matches (user_id : Nat) (start_date end_date : Option String)
    (categories : Option (List String)) (e : Expense) : Bool :=
  e.user_id == user_id &&
  (match start_date with
   | none => true
   | some s => s == "" || strLe s e.date) &&
  (match end_date with
   | none => true
   | some s => s == "" || strLe e.date s) &&
  (match categories with
   | none => true
   | some cs => cs.isEmpty || cs.contains e.category)

/-- The `ORDER BY date ASC, id ASC` ordering on expense rows. -/
def expense_ord (a b : Expense) : Prop :=
  strLt a.date b.date = true ∨ (a.date = b.date ∧ a.id ≤ b.id)

instance : DecidableRel expense_ord := fun a b => by
  unfold expense_ord; infer_instance

/-- `get_expenses_df(user_id, start_date, end_date, categories)`:
`SELECT ... FROM expenses WHERE user_id = ? [AND date >= ?] [AND date <= ?]
[AND category IN (...)] ORDER BY date ASC, id ASC`, each optional clause
added only when its Python argument is truthy. -/
def get_expenses_df (db : DB) (user_id : Nat) (start_date end_date : Option String)
    (categories : Option (List String)) : List Expense :=
  (db.expenses.filter (expense_matches user_id start_date end_date categories)).insertionSort
    expense_ord

/-- `delete_expense(user_id, expense_id)`:
`DELETE FROM expenses WHERE user_id = ? AND id = ?`. -/
def delete_expense (db : DB) (user_id expense_id : Nat) : DB :=
  { db with expenses := db.expenses.filter (fun e => !(e.user_id == user_id && e.id == expense_id)) }

/-- `update_expense(user_id, expense_id, date, category, amount, note)`:
`UPDATE expenses SET date=?, category=?, amount=?, note=? WHERE user_id = ?
AND id = ?`; when a row matches and the new amount violates
`CHECK(amount >= 0)` the statement raises and nothing changes, otherwise the
matching rows (at most one through the primary key) are replaced in place. -/
def update_expense (db : DB) (user_id expense_id : Nat) (date category : String)
    (amount : ℤ) (note : String) : Except Unit DB :=
  if amount < 0 ∧ db.expenses.any (fun e => e.user_id == user_id && e.id == expense_id) then
    .error ()
  else
    .ok { db with
          expenses := db.expenses.map (fun e =>
            if e.user_id == user_id && e.id == expense_id then
              { e with date := date, category := category, amount := amount, note := note }
            else e) }

/-- `set_budget(user_id, month, amount)`:
`INSERT INTO budgets ... ON CONFLICT(user_id, month) DO UPDATE SET
amount=excluded.amount` — replaces the amount of the existing `(user,
month)` row if there is one, otherwise inserts a new row; a negative amount
violates `CHECK(amount >= 0)` and raises. -/
def set_budget (db : DB) (user_id : Nat) (month : String) (amount : ℤ) : Except Unit DB :=
  if amount < 0 then .error ()
  else if db.budgets.any (fun b => b.user_id == user_id && b.month == month) then
    .ok { db with
          budgets := db.budgets.map (fun b =>
            if b.user_id == user_id && b.month == month then { b with amount := amount } else b) }
  else
    .ok { db with budgets := db.budgets ++ [{ user_id := user_id, month := month, amount := amount }] }

/-- `get_budget(user_id, month)`: the amount of the `(user, month)` row, or
`none`. -/
def get_budget (db : DB) (user_id : Nat) (month : String) : Option ℤ :=
  (db.budgets.find? (fun b => b.user_id == user_id && b.month == month)).map (fun b => b.amount)

/-- `get_month_total(user_id, month)`:
`SELECT COALESCE(SUM(amount), 0) FROM expenses WHERE user_id = ? AND
date >= ? AND date <= ?` with the range `month ++ "-01" .. month ++ "-31"`. -/
def get_month_total (db : DB) (user_id : Nat) (month : String) : ℤ :=
  ((db.expenses.filter (fun e =>
      e.user_id == user_id && strLe (month ++ "-01") e.date &&
        strLe e.date (month ++ "-31"))).map
    (fun e => e.amount)).sum

/-- The per-category sum `COALESCE(SUM(amount), 0)` over a row set. -/
def category_total (rows : List Expense) (c : String) : ℤ :=
  ((rows.filter (fun e => e.category == c)).map (fun e => e.amount)).sum

/-- `ORDER BY total DESC LIMIT 1` over the grouped totals: picks a category
of the list whose total is maximal (SQLite leaves the tie order
unspecified; this model keeps the later-listed category on ties). -/
def pick_top (f : String → ℤ) : List String → Option (String × ℤ)
  | [] => none
  | c :: cs =>
    match pick_top f cs with
    | none => some (c, f c)
    | some (b, t) => if t < f c then some (c, f c) else some (b, t)

/-- `get_top_category(user_id, start_date, end_date)`:
`SELECT category, COALESCE(SUM(amount),0) as total FROM expenses WHERE
user_id = ? [AND date >= ?] [AND date <= ?] GROUP BY category ORDER BY
total DESC LIMIT 1`; returns `none` when no row matches. -/
def get_top_category (db : DB) (user_id : Nat) (start_date end_date : Option String) :
    Option (String × ℤ) :=
  let rows := db.expenses.filter (expense_matches user_id start_date end_date none)
  pick_top (category_total rows) (rows.map (fun e => e.category)).dedup

/-! ### Properties of the `TEXT` byte order -/

theorem charListLt_irrefl : ∀ l, charListLt l l = false
  | [] => rfl
  | a :: as => by simp [charListLt, charListLt_irrefl as]

theorem charListLt_trans :
    ∀ (a b c : List Char), charListLt a b = true → charListLt b c = true →
      charListLt a c = true
  | _, _, [], _, hbc => by simp [charListLt] at hbc
  | [], _ :: _, _ :: _, _, _ => by simp [charListLt]
  | _ :: _, [], _ :: _, hab, _ => by simp [charListLt] at hab
  | a :: as, b :: bs, c :: cs, hab, hbc => by
    simp only [charListLt, Bool.or_eq_true, Bool.and_eq_true, decide_eq_true_eq,
      beq_iff_eq] at hab hbc ⊢
    rcases hab with h1 | ⟨h1, h1'⟩ <;> rcases hbc with h2 | ⟨h2, h2'⟩
    · exact .inl (Nat.lt_trans h1 h2)
    · exact .inl (h2 ▸ h1)
    · exact .inl (h1 ▸ h2)
    · exact .inr ⟨h1.trans h2, charListLt_trans as bs cs h1' h2'⟩

theorem charListLt_connex :
    ∀ (a b : List Char), charListLt a b = false → charListLt b a = false → a = b
  | [], [], _, _ => rfl
  | [], _ :: _, hab, _ => by simp [charListLt] at hab
  | _ :: _, [], _, hba => by simp [charListLt] at hba
  | a :: as, b :: bs, hab, hba => by
    simp only [charListLt, Bool.or_eq_false_iff, Bool.and_eq_false_iff,
      decide_eq_false_iff_not, beq_eq_false_iff_ne, ne_eq, Decidable.not_not] at hab hba
    have heq : a.toNat = b.toNat := by omega
    have htail : as = bs := by
      rcases hab.2 with h | h
      · exact absurd heq h
      · rcases hba.2 with h' | h'
        · exact absurd heq.symm h'
        · exact charListLt_connex as bs h h'
    have hhead : a = b := Char.eq_of_val_eq (UInt32.toNat.inj heq)
    rw [hhead, htail]

theorem strLt_irrefl (a : String) : strLt a a = false := charListLt_irrefl _

theorem strLt_trans {a b c : String} (h : strLt a b = true) (h' : strLt b c = true) :
    strLt a c = true := charListLt_trans _ _ _ h h'

theorem strLt_connex {a b : String} (h : strLt a b = false) (h' : strLt b a = false) :
    a = b := by
  cases a; cases b
  exact congrArg String.mk (charListLt_connex _ _ h h')

theorem strLt_asymm {a b : String} (h : strLt a b = true) : strLt b a = false := by
  by_contra h'
  have := strLt_trans h (Bool.of_not_eq_false h')
  rw [strLt_irrefl] at this
  exact Bool.false_ne_true this

theorem strLe_refl (a : String) : strLe a a = true := by
  simp [strLe, strLt_irrefl]

theorem strLe_trans {a b c : String} (h : strLe a b = true) (h' : strLe b c = true) :
    strLe a c = true := by
  simp only [strLe, Bool.not_eq_true', Bool.not_eq_false] at h h' ⊢
  by_contra hca
  have hca : strLt c a = true := Bool.of_not_eq_false hca
  cases hab : strLt a b with
  | true =>
    have hcb := strLt_trans hca hab
    rw [h'] at hcb
    exact Bool.false_ne_true hcb
  | false =>
    have hcb : strLt c b = true := strLt_connex hab h ▸ hca
    rw [h'] at hcb
    exact Bool.false_ne_true hcb

theorem strLe_total (a b : String) : strLe a b = true ∨ strLe b a = true := by
  simp only [strLe, Bool.not_eq_true']
  cases hba : strLt b a with
  | false => exact .inl rfl
  | true => exact .inr (strLt_asymm hba)

theorem strLt_or_ge (a b : String) : strLt a b = true ∨ strLe b a = true := by
  simp only [strLe, Bool.not_eq_true']
  cases h : strLt a b with
  | false => exact .inr rfl
  | true => exact .inl rfl

instance : IsTrans Expense expense_ord := by
  constructor
  intro a b c hab hbc
  rcases hab with h | ⟨h, h'⟩ <;> rcases hbc with g | ⟨g, g'⟩
  · exact .inl (strLt_trans h g)
  · exact .inl (g ▸ h)
  · exact .inl (h ▸ g)
  · exact .inr ⟨h.trans g, h'.trans g'⟩

instance : IsTotal Expense expense_ord := by
  constructor
  intro a b
  cases hab : strLt a.date b.date with
  | true => exact .inl (.inl hab)
  | false =>
    cases hba : strLt b.date a.date with
    | true => exact .inr (.inl hba)
    | false =>
      have hd := strLt_connex hab hba
      rcases Nat.le_total a.id b.id with h | h
      · exact .inl (.inr ⟨hd, h⟩)
      · exact .inr (.inr ⟨hd.symm, h⟩)

/-! ### Characterisation of the expense query -/

theorem mem_get_expenses_df {db : DB} {user_id : Nat} {start_date end_date : Option String}
    {categories : Option (List String)} {e : Expense} :
    e ∈ get_expenses_df db user_id start_date end_date categories ↔
      e ∈ db.expenses ∧ expense_matches user_id start_date end_date categories e = true := by
  unfold get_expenses_df
  rw [List.mem_insertionSort]
  exact List.mem_filter

theorem sorted_get_expenses_df (db : DB) (user_id : Nat) (start_date end_date : Option String)
    (categories : Option (List String)) :
    List.Sorted expense_ord (get_expenses_df db user_id start_date end_date categories) :=
  List.sorted_insertionSort _ _

theorem get_expenses_df_perm (db : DB) (user_id : Nat) (start_date end_date : Option String)
    (categories : Option (List String)) :
    (get_expenses_df db user_id start_date end_date categories).Perm
      (db.expenses.filter (expense_matches user_id start_date end_date categories)) :=
  List.perm_insertionSort _ _

theorem expense_matches_iff {user_id : Nat} {start_date end_date : Option String}
    {categories : Option (List String)} {e : Expense} :
    expense_matches user_id start_date end_date categories e = true ↔
      e.user_id = user_id
      ∧ (∀ s, start_date = some s → s ≠ "" → strLe s e.date = true)
      ∧ (∀ s, end_date = some s → s ≠ "" → strLe e.date s = true)
      ∧ (∀ cs, categories = some cs → cs ≠ [] → e.category ∈ cs) := by
  unfold expense_matches
  cases start_date <;> cases end_date <;> cases categories <;>
    simp [List.isEmpty_iff, or_iff_not_imp_left, List.contains, List.elem_iff] <;>
    aesop

/-! ### Test fixtures -/

/-- Test fixture: apply `add_expense`, keeping the old store if the insert
failed. -/
def addOk (db : DB) (user_id : Nat) (date category : String) (amount : ℤ)
    (note : String) : DB :=
  match add_expense db user_id date category amount note with
  | .ok (_, db') => db'
  | .error _ => db

/-- Test fixture: a store holding the three example expenses of the spec's
aggregation property, all owned by user 1 (ids 1, 2, 3 in insertion
order). -/
def sampleDB : DB :=
  addOk (addOk (addOk DB.empty 1 "2024-01-05" "Food" 100 "") 1 "2024-01-20" "Food" 50 "")
    1 "2024-01-10" "Travel" 30 ""

/-! ### Claims -/

/-- Claim C1 (cross-user isolation): for distinct users `A ≠ B`, an expense
added with owner `A` is never included in the result of querying expenses
for `B`, whatever the filters, and deleting that expense's id under user
`B` leaves the row present and unchanged. -/
theorem C1_cross_user_isolation (db : DB) (A B : Nat) (hAB : A ≠ B)
    (date category note : String) (amount : ℤ) (eid : Nat) (db' : DB)
    (h : add_expense db A date category amount note = .ok (eid, db')) :
    (∀ start_date end_date categories,
      ({ id := eid, user_id := A, date := date, category := category,
         amount := amount, note := note } : Expense) ∉
        get_expenses_df db' B start_date end_date categories)
    ∧ ({ id := eid, user_id := A, date := date, category := category,
         amount := amount, note := note } : Expense) ∈
        (delete_expense db' B eid).expenses := by
  unfold add_expense at h
  by_cases hneg : amount < 0
  · simp [hneg] at h
  · simp only [if_neg hneg, Except.ok.injEq, Prod.mk.injEq] at h
    obtain ⟨heid, hdb⟩ := h
    constructor
    · intro sd ed cats hmem
      rw [mem_get_expenses_df] at hmem
      exact hAB (expense_matches_iff.mp hmem.2).1
    · subst hdb
      refine List.mem_filter.mpr ⟨List.mem_append_right _ ?_, ?_⟩
      · rw [heid]; exact List.mem_singleton_self _
      · simp [hAB]

theorem C1_cross_user_isolation_witness :
    ({ id := 1, user_id := 1, date := "2024-01-05", category := "Food",
       amount := 100, note := "" } : Expense) ∉
      get_expenses_df (addOk DB.empty 1 "2024-01-05" "Food" 100 "") 2 none none none
    ∧ ({ id := 1, user_id := 1, date := "2024-01-05", category := "Food",
         amount := 100, note := "" } : Expense) ∈
        (delete_expense (addOk DB.empty 1 "2024-01-05" "Food" 100 "") 2 1).expenses := by
  have h := C1_cross_user_isolation DB.empty 1 2 (by decide) "2024-01-05" "Food" "" 100 1
    (addOk DB.empty 1 "2024-01-05" "Food" 100 "") rfl
  exact ⟨h.1 none none none, h.2⟩

/-- Claim C9 (silent no-op on unauthorized or missing target): when no
expense of the store both has the given id and belongs to the given user,
`delete_expense` and `update_expense` return normally and leave the entire
store unchanged; conversely they modify the store only when a matching
owned expense exists. -/
theorem C9_silent_noop_on_unauthorized (db : DB) (user_id expense_id : Nat)
    (date category note : String) (amount : ℤ) :
    ((∀ e ∈ db.expenses, ¬(e.user_id = user_id ∧ e.id = expense_id)) →
      delete_expense db user_id expense_id = db
      ∧ update_expense db user_id expense_id date category amount note = .ok db)
    ∧ (delete_expense db user_id expense_id ≠ db →
        ∃ e ∈ db.expenses, e.user_id = user_id ∧ e.id = expense_id)
    ∧ (∀ db', update_expense db user_id expense_id date category amount note = .ok db' →
        db' ≠ db → ∃ e ∈ db.expenses, e.user_id = user_id ∧ e.id = expense_id) := by
  have main : (∀ e ∈ db.expenses, ¬(e.user_id = user_id ∧ e.id = expense_id)) →
      delete_expense db user_id expense_id = db
      ∧ update_expense db user_id expense_id date category amount note = .ok db := by
    intro h
    have hfalse : ∀ e ∈ db.expenses, (e.user_id == user_id && e.id == expense_id) = false := by
      intro e he
      have := h e he
      simp only [Bool.and_eq_false_iff, beq_eq_false_iff_ne, ne_eq]
      tauto
    have hany : db.expenses.any (fun e => e.user_id == user_id && e.id == expense_id) = false :=
      List.any_eq_false.mpr (fun e he => by simp [hfalse e he])
    constructor
    · unfold delete_expense
      have : db.expenses.filter (fun e => !(e.user_id == user_id && e.id == expense_id)) =
          db.expenses :=
        List.filter_eq_self.mpr (fun e he => by simp [hfalse e he])
      rw [this]
    · unfold update_expense
      rw [if_neg (by simp [hany])]
      have hmap : ∀ e ∈ db.expenses,
          (if e.user_id == user_id && e.id == expense_id then
            { e with date := date, category := category, amount := amount, note := note }
          else e) = (fun e => e) e := by
        intro e he
        rw [if_neg (by simp [hfalse e he])]
      rw [List.map_congr_left hmap, List.map_id']
  refine ⟨main, ?_, ?_⟩
  · intro hne
    by_contra hcon
    push_neg at hcon
    exact hne (main (fun e he hm => hcon e he hm.1 hm.2)).1
  · intro db' hupd hne
    by_contra hcon
    push_neg at hcon
    have := (main (fun e he hm => hcon e he hm.1 hm.2)).2
    rw [hupd] at this
    exact hne (Except.ok.inj this)

theorem C9_silent_noop_witness :
    delete_expense sampleDB 2 1 = sampleDB
    ∧ update_expense sampleDB 2 1 "2024-02-01" "Bills" 7 "x" = .ok sampleDB := by
  exact (C9_silent_noop_on_unauthorized sampleDB 2 1 "2024-02-01" "Bills" "x" 7).1 (by decide)

/-- Claim C10 (degenerate filters behave as absent): an empty category
list, an empty-string start date, or an empty-string end date imposes no
restriction — the query result is identical to the one with the filter
absent, because each `WHERE` clause is added only when its Python argument
is truthy. -/
theorem C10_degenerate_filters_no_restriction (db : DB) (user_id : Nat)
    (start_date end_date : Option String) (categories : Option (List String)) :
    get_expenses_df db user_id (some "") end_date categories =
        get_expenses_df db user_id none end_date categories
    ∧ get_expenses_df db user_id start_date (some "") categories =
        get_expenses_df db user_id start_date none categories
    ∧ get_expenses_df db user_id start_date end_date (some []) =
        get_expenses_df db user_id start_date end_date none := by
  refine ⟨?_, ?_, ?_⟩
  · unfold get_expenses_df
    congr 1
  · unfold get_expenses_df
    congr 1
  · unfold get_expenses_df
    congr 1

/-- The modelled digest is injective in the password for a fixed salt. -/
theorem _hash_password_inj {salt a b : String} (h : _hash_password a salt = _hash_password b salt) :
    a = b := by
  unfold _hash_password at h
  have h' := congrArg String.data h
  rw [String.data_append, String.data_append] at h'
  cases a; cases b
  exact congrArg String.mk (List.append_cancel_left h')

/-- Claim C2 (authentication correctness): whenever `create_user U P`
succeeded with id `uid`, `authenticate_user U P` on the resulting store
returns `some uid`, and `authenticate_user U P'` for any `P' ≠ P` returns
`none`. -/
theorem C2_authentication_correctness (db : DB) (U P salt created_at : String)
    (uid : Nat) (db' : DB)
    (h : create_user db U P salt created_at = (some uid, db')) :
    authenticate_user db' U P = some uid
    ∧ ∀ P', P' ≠ P → authenticate_user db' U P' = none := by
  unfold create_user at h
  by_cases h1 : pyStrip U = "" ∨ P = ""
  · simp [h1] at h
  · rw [if_neg h1] at h
    by_cases h2 : db.users.any (fun u => u.username == pyStrip U) = true
    · rw [if_pos h2] at h
      simp at h
    · rw [if_neg h2] at h
      simp only [Prod.mk.injEq, Option.some.injEq] at h
      obtain ⟨huid, hdb⟩ := h
      have h2' : db.users.any (fun u => u.username == pyStrip U) = false :=
        Bool.eq_false_iff.mpr h2
      have hnone : db.users.find? (fun u => u.username == pyStrip U) = none := by
        rw [List.find?_eq_none]
        intro u hu
        exact List.any_eq_false.mp h2' u hu
      subst hdb
      unfold authenticate_user
      rw [List.find?_append, hnone, Option.none_or]
      rw [List.find?_cons_of_pos _ (by simp)]
      constructor
      · simp [huid]
      · intro P' hne
        have hfalse : (_hash_password P' salt == _hash_password P salt) = false := by
          simp only [beq_eq_false_iff_ne, ne_eq]
          exact fun heq => hne (_hash_password_inj heq)
        simp [hfalse]

theorem C2_authentication_correctness_witness :
    authenticate_user (create_user DB.empty "alice" "pw" "s1" "t1").2 "alice" "pw" = some 1
    ∧ authenticate_user (create_user DB.empty "alice" "pw" "s1" "t1").2 "alice" "bad" = none := by
  have h := C2_authentication_correctness DB.empty "alice" "pw" "s1" "t1" 1
    (create_user DB.empty "alice" "pw" "s1" "t1").2 rfl
  exact ⟨h.1, h.2 "bad" (by decide)⟩

/-- Claim C3 (create-user failure conditions): `create_user` trims the
username and returns `none` without modifying the store whenever the
trimmed username is empty, the password is empty, or a user with that
username already exists; after a success, any later `create_user` with the
same username fails regardless of the new password. -/
theorem C3_create_user_failure (db : DB) (U P P2 : String)
    (salt created_at salt2 created_at2 : String) :
    (pyStrip U = "" → create_user db U P salt created_at = (none, db))
    ∧ (P = "" → create_user db U P salt created_at = (none, db))
    ∧ ((∃ u ∈ db.users, u.username = pyStrip U) →
        create_user db U P salt created_at = (none, db))
    ∧ (∀ uid db', create_user db U P salt created_at = (some uid, db') →
        create_user db' U P2 salt2 created_at2 = (none, db')) := by
  refine ⟨?_, ?_, ?_, ?_⟩
  · intro hU
    unfold create_user
    rw [if_pos (.inl hU)]
  · intro hP
    unfold create_user
    rw [if_pos (.inr hP)]
  · intro ⟨u, hu, huname⟩
    unfold create_user
    by_cases h1 : pyStrip U = "" ∨ P = ""
    · rw [if_pos h1]
    · rw [if_neg h1]
      rw [if_pos (List.any_eq_true.mpr ⟨u, hu, by simp [huname]⟩)]
  · intro uid db' h
    unfold create_user at h
    by_cases h1 : pyStrip U = "" ∨ P = ""
    · simp [h1] at h
    · rw [if_neg h1] at h
      by_cases h2 : db.users.any (fun u => u.username == pyStrip U) = true
      · rw [if_pos h2] at h
        simp at h
      · rw [if_neg h2] at h
        simp only [Prod.mk.injEq, Option.some.injEq] at h
        obtain ⟨huid, hdb⟩ := h
        subst hdb
        unfold create_user
        by_cases h3 : pyStrip U = "" ∨ P2 = ""
        · rw [if_pos h3]
        · rw [if_neg h3]
          rw [if_pos (List.any_eq_true.mpr ⟨_, List.mem_append_right _ (List.mem_singleton_self _),
            by simp⟩)]

theorem C3_create_user_failure_witness :
    create_user DB.empty "  " "pw" "s1" "t1" = (none, DB.empty)
    ∧ create_user DB.empty "bob" "" "s1" "t1" = (none, DB.empty)
    ∧ create_user (create_user DB.empty "alice" "pw" "s1" "t1").2 "alice" "pw" "s2" "t2" =
        (none, (create_user DB.empty "alice" "pw" "s1" "t1").2)
    ∧ create_user (create_user DB.empty "alice" "pw" "s1" "t1").2 "alice" "other" "s2" "t2" =
        (none, (create_user DB.empty "alice" "pw" "s1" "t1").2) := by
  have h1 := C3_create_user_failure DB.empty "  " "pw" "x" "s1" "t1" "s2" "t2"
  have h2 := C3_create_user_failure DB.empty "bob" "" "x" "s1" "t1" "s2" "t2"
  have h3 := C3_create_user_failure (create_user DB.empty "alice" "pw" "s1" "t1").2
    "alice" "pw" "x" "s2" "t2" "s3" "t3"
  have h4 := C3_create_user_failure DB.empty "alice" "pw" "other" "s1" "t1" "s2" "t2"
  refine ⟨h1.1 (by decide), h2.2.1 rfl, ?_, h4.2.2.2 1 _ rfl⟩
  exact h3.2.2.1 ⟨⟨1, "alice", "s1pw", "s1", "t1"⟩, by decide, by decide⟩


/-- Counterexample to claim C4 as stated: the claim's filter semantics
("category a member of the given set" for every supplied category list)
would return no rows when the supplied list is empty, but the code treats a
supplied empty list as no restriction (the Python truthiness check skips
the `IN` clause), so the query still returns the user's "Food" expense —
and membership in the empty set never holds. -/
theorem C4_query_filtering_counterexample :
    get_expenses_df (addOk DB.empty 1 "2024-01-05" "Food" 100 "") 1 none none (some []) =
      [⟨1, 1, "2024-01-05", "Food", 100, ""⟩]
    ∧ (⟨1, 1, "2024-01-05", "Food", 100, ""⟩ : Expense).category ∉ ([] : List String) := by
  exact ⟨by decide, by decide⟩

/-- Claim C4 (amended): for every user and every combination of optional
start date, end date and category list, the query returns exactly (as a
multiset — third conjunct) the user's expenses satisfying all supplied
*nonempty* filters (first conjunct: date range inclusive on both ends in
the store's byte order; category membership when a nonempty list is
supplied; an absent filter — and likewise a supplied empty-string date or
empty category list — imposes no restriction), sorted by date ascending
with id ascending as tie-break (second conjunct); the result is a pure
function of the store and the arguments, hence deterministic across
repeated calls. -/
theorem C4_query_filtering_ordering (db : DB) (user_id : Nat)
    (start_date end_date : Option String) (categories : Option (List String)) :
    (∀ e, e ∈ get_expenses_df db user_id start_date end_date categories ↔
      e ∈ db.expenses ∧ e.user_id = user_id
      ∧ (∀ s, start_date = some s → s ≠ "" → strLe s e.date = true)
      ∧ (∀ s, end_date = some s → s ≠ "" → strLe e.date s = true)
      ∧ (∀ cs, categories = some cs → cs ≠ [] → e.category ∈ cs))
    ∧ List.Sorted expense_ord (get_expenses_df db user_id start_date end_date categories)
    ∧ (get_expenses_df db user_id start_date end_date categories).Perm
        (db.expenses.filter (expense_matches user_id start_date end_date categories)) := by
  refine ⟨?_, sorted_get_expenses_df db user_id start_date end_date categories,
    get_expenses_df_perm db user_id start_date end_date categories⟩
  intro e
  rw [mem_get_expenses_df, expense_matches_iff]

/-- Claim C5 (add/update round-trip): a freshly added expense appears, with
identical field values, in the unfiltered query of its owner; updating an
owned expense makes the query reflect exactly the new field values for that
row — the new-valued row is returned and every row (of the store or of the
query) that carries the target's id and owner is that new-valued row, so no
stale copy of the old values survives — and leaves every other row
unchanged. -/
theorem C5_add_update_roundtrip (db : DB) (user_id : Nat) :
    (∀ date category note amount eid db',
      add_expense db user_id date category amount note = .ok (eid, db') →
        (⟨eid, user_id, date, category, amount, note⟩ : Expense) ∈
          get_expenses_df db' user_id none none none)
    ∧ (∀ old date category note amount db'',
        old ∈ db.expenses → old.user_id = user_id →
        update_expense db user_id old.id date category amount note = .ok db'' →
          (⟨old.id, user_id, date, category, amount, note⟩ : Expense) ∈
            get_expenses_df db'' user_id none none none
          ∧ (∀ x ∈ db.expenses, ¬(x.user_id = user_id ∧ x.id = old.id) → x ∈ db''.expenses)
          ∧ (∀ x ∈ db''.expenses, x ∈ db.expenses ∨
              x = (⟨old.id, user_id, date, category, amount, note⟩ : Expense))
          ∧ (∀ x ∈ db''.expenses, x.user_id = user_id → x.id = old.id →
              x = (⟨old.id, user_id, date, category, amount, note⟩ : Expense))
          ∧ (∀ x ∈ get_expenses_df db'' user_id none none none, x.id = old.id →
              x = (⟨old.id, user_id, date, category, amount, note⟩ : Expense))) := by
  constructor
  · intro date category note amount eid db' h
    unfold add_expense at h
    by_cases hneg : amount < 0
    · simp [hneg] at h
    · simp only [if_neg hneg, Except.ok.injEq, Prod.mk.injEq] at h
      obtain ⟨heid, hdb⟩ := h
      subst hdb
      rw [mem_get_expenses_df]
      constructor
      · refine List.mem_append_right _ ?_
        rw [heid]
        exact List.mem_singleton_self _
      · simp [expense_matches]
  · intro old date category note amount db'' hold howner hupd
    unfold update_expense at hupd
    by_cases hc : amount < 0 ∧
        db.expenses.any (fun e => e.user_id == user_id && e.id == old.id) = true
    · simp [hc] at hupd
    · rw [if_neg hc] at hupd
      simp only [Except.ok.injEq] at hupd
      subst hupd
      have hkey : ∀ x ∈ db.expenses.map (fun e =>
          if e.user_id == user_id && e.id == old.id then
            { e with date := date, category := category, amount := amount, note := note }
          else e), x.user_id = user_id → x.id = old.id →
          x = (⟨old.id, user_id, date, category, amount, note⟩ : Expense) := by
        intro x hx hxu hxi
        rcases List.mem_map.mp hx with ⟨y, hy, hfy⟩
        by_cases hyc : (y.user_id == user_id && y.id == old.id) = true
        · rw [if_pos hyc] at hfy
          simp only [Bool.and_eq_true, beq_iff_eq] at hyc
          rw [← hfy]
          cases y
          simp_all
        · exfalso
          rw [if_neg hyc] at hfy
          apply hyc
          simp only [Bool.and_eq_true, beq_iff_eq]
          rw [hfy]
          exact ⟨hxu, hxi⟩
      refine ⟨?_, ?_, ?_, hkey, ?_⟩
      · rw [mem_get_expenses_df]
        constructor
        · refine List.mem_map.mpr ⟨old, hold, ?_⟩
          rw [if_pos (by simp [howner])]
          simp [howner]
        · simp [expense_matches]
      · intro x hx hnot
        refine List.mem_map.mpr ⟨x, hx, ?_⟩
        rw [if_neg]
        simp only [Bool.and_eq_true, beq_iff_eq]
        tauto
      · intro x hx
        rcases List.mem_map.mp hx with ⟨y, hy, hfy⟩
        by_cases hyc : (y.user_id == user_id && y.id == old.id) = true
        · right
          rw [if_pos hyc] at hfy
          simp only [Bool.and_eq_true, beq_iff_eq] at hyc
          rw [← hfy, hyc.1, hyc.2]
        · left
          rw [if_neg hyc] at hfy
          rw [← hfy]
          exact hy
      · intro x hx hxi
        have hmem := mem_get_expenses_df.mp hx
        exact hkey x hmem.1 (expense_matches_iff.mp hmem.2).1 hxi

theorem C5_add_update_roundtrip_witness :
    (⟨4, 1, "2024-02-01", "Bills", 40, "n"⟩ : Expense) ∈
      get_expenses_df (addOk sampleDB 1 "2024-02-01" "Bills" 40 "n") 1 none none none
    ∧ (⟨1, 1, "2024-01-06", "Travel", 70, "m"⟩ : Expense) ∈
      get_expenses_df
        { sampleDB with
          expenses := sampleDB.expenses.map (fun e =>
            if e.user_id == 1 && e.id == 1 then
              { e with date := "2024-01-06", category := "Travel", amount := 70, note := "m" }
            else e) }
        1 none none none := by
  have h := C5_add_update_roundtrip sampleDB 1
  refine ⟨h.1 "2024-02-01" "Bills" "n" 40 4 _ rfl, ?_⟩
  exact (h.2 ⟨1, 1, "2024-01-05", "Food", 100, ""⟩ "2024-01-06" "Travel" "m" 70 _
    (by decide) rfl rfl).1

/-- The month range strings `month ++ "-01"` and `month ++ "-31"` are never
empty, so the truthiness guard of the query never skips them. -/
theorem append_day_ne_empty (month day : String) (hday : day.data ≠ []) :
    month ++ day ≠ "" := by
  intro hcon
  have h := congrArg String.data hcon
  rw [String.data_append] at h
  rcases List.append_eq_nil.mp h with ⟨-, h2⟩
  exact hday h2

/-- Claim C6 (month-total correctness): `get_month_total` sums the amounts
of exactly those of the user's expenses whose date lies between
`month ++ "-01"` and `month ++ "-31"` inclusive — it equals the amount sum
of the corresponding range query (first conjunct), is `0` when no expense
matches (second conjunct), and on the spec's example store the total for
"2024-01" is 180 (third conjunct). -/
theorem C6_month_total (db : DB) (user_id : Nat) (month : String) :
    get_month_total db user_id month =
      ((get_expenses_df db user_id (some (month ++ "-01")) (some (month ++ "-31")) none).map
        (fun e => e.amount)).sum
    ∧ ((∀ e ∈ db.expenses, ¬(e.user_id = user_id ∧ strLe (month ++ "-01") e.date = true ∧
          strLe e.date (month ++ "-31") = true)) → get_month_total db user_id month = 0)
    ∧ get_month_total sampleDB 1 "2024-01" = 180 := by
  have hne1 : ((month ++ "-01") == "") = false :=
    beq_eq_false_iff_ne.mpr (append_day_ne_empty month "-01" (by decide))
  have hne2 : ((month ++ "-31") == "") = false :=
    beq_eq_false_iff_ne.mpr (append_day_ne_empty month "-31" (by decide))
  refine ⟨?_, ?_, by decide⟩
  · unfold get_month_total get_expenses_df
    have hfilter : db.expenses.filter (fun e => e.user_id == user_id &&
        strLe (month ++ "-01") e.date && strLe e.date (month ++ "-31")) =
        db.expenses.filter
          (expense_matches user_id (some (month ++ "-01")) (some (month ++ "-31")) none) :=
      List.filter_congr (fun e _ => by simp [expense_matches, hne1, hne2])
    rw [hfilter]
    exact (((List.perm_insertionSort expense_ord _).map (fun e => e.amount)).sum_eq).symm
  · intro h
    unfold get_month_total
    have hnil : db.expenses.filter (fun e => e.user_id == user_id &&
        strLe (month ++ "-01") e.date && strLe e.date (month ++ "-31")) = [] := by
      rw [List.filter_eq_nil_iff]
      intro e he
      have := h e he
      simp only [Bool.and_eq_true, beq_iff_eq, not_and] at this ⊢
      tauto
    rw [hnil]
    rfl

theorem C6_month_total_witness : get_month_total DB.empty 7 "2024-01" = 0 :=
  (C6_month_total DB.empty 7 "2024-01").2.1 (by decide)

/-- `pick_top` never returns `none` on a nonempty list. -/
theorem pick_top_ne_none (f : String → ℤ) (c : String) (cs : List String) :
    pick_top f (c :: cs) ≠ none := by
  unfold pick_top
  cases pick_top f cs with
  | none => simp
  | some p =>
    obtain ⟨b, t⟩ := p
    by_cases h : t < f c <;> simp [h]

theorem pick_top_eq_none_iff (f : String → ℤ) (l : List String) :
    pick_top f l = none ↔ l = [] := by
  cases l with
  | nil => simp [pick_top]
  | cons c cs => simp [pick_top_ne_none]

/-- The element returned by `pick_top` carries its own total and is maximal
among the listed categories. -/
theorem pick_top_spec (f : String → ℤ) :
    ∀ (l : List String) (b : String) (t : ℤ), pick_top f l = some (b, t) →
      b ∈ l ∧ t = f b ∧ ∀ x ∈ l, f x ≤ t
  | [], b, t, h => by simp [pick_top] at h
  | c :: cs, b, t, h => by
    rw [pick_top] at h
    cases hrec : pick_top f cs with
    | none =>
      rw [hrec] at h
      simp only [Option.some.injEq, Prod.mk.injEq] at h
      obtain ⟨hb, ht⟩ := h
      subst hb
      subst ht
      have hnil : cs = [] := (pick_top_eq_none_iff f cs).mp hrec
      subst hnil
      refine ⟨List.mem_singleton_self _, rfl, ?_⟩
      intro x hx
      rw [List.mem_singleton.mp hx]
    | some p =>
      obtain ⟨b2, t2⟩ := p
      rw [hrec] at h
      have ih := pick_top_spec f cs b2 t2 hrec
      simp only [] at h
      by_cases hlt : t2 < f c
      · rw [if_pos hlt] at h
        simp only [Option.some.injEq, Prod.mk.injEq] at h
        obtain ⟨hb, ht⟩ := h
        subst hb
        subst ht
        refine ⟨List.mem_cons_self _ _, rfl, ?_⟩
        intro x hx
        rcases List.mem_cons.mp hx with hx | hx
        · rw [hx]
        · exact le_trans (ih.2.2 x hx) (le_of_lt hlt)
      · rw [if_neg hlt] at h
        simp only [Option.some.injEq, Prod.mk.injEq] at h
        obtain ⟨hb, ht⟩ := h
        subst hb
        subst ht
        refine ⟨List.mem_cons_of_mem _ ih.1, ih.2.1, ?_⟩
        intro x hx
        rcases List.mem_cons.mp hx with hx | hx
        · rw [hx]
          exact le_of_not_lt hlt
        · exact ih.2.2 x hx

/-- Claim C7 (top-category correctness): `get_top_category` returns `none`
exactly when no expense of the user matches the range (first conjunct);
when it returns `some (c, t)`, `t` is the sum of the user's matching
amounts in category `c`, some matching expense has category `c`, and no
category of a matching expense has a strictly larger sum (second
conjunct). -/
theorem C7_top_category (db : DB) (user_id : Nat) (start_date end_date : Option String) :
    (get_top_category db user_id start_date end_date = none ↔
      ∀ e ∈ db.expenses, expense_matches user_id start_date end_date none e = false)
    ∧ (∀ c t, get_top_category db user_id start_date end_date = some (c, t) →
        t = category_total
            (db.expenses.filter (expense_matches user_id start_date end_date none)) c
        ∧ (∃ e ∈ db.expenses, expense_matches user_id start_date end_date none e = true ∧
            e.category = c)
        ∧ (∀ c2, (∃ e ∈ db.expenses,
              expense_matches user_id start_date end_date none e = true ∧ e.category = c2) →
            category_total
              (db.expenses.filter (expense_matches user_id start_date end_date none)) c2 ≤ t)) := by
  constructor
  · unfold get_top_category
    rw [pick_top_eq_none_iff]
    rw [List.dedup_eq_nil, List.map_eq_nil_iff, List.filter_eq_nil_iff]
    constructor
    · intro h e he
      have := h e he
      exact Bool.eq_false_iff.mpr this
    · intro h e he
      rw [h e he]
      exact Bool.false_ne_true
  · intro c t h
    unfold get_top_category at h
    obtain ⟨hmem, ht, hmax⟩ := pick_top_spec _ _ c t h
    have hc_mem : ∃ e ∈ db.expenses.filter (expense_matches user_id start_date end_date none),
        e.category = c := by
      rcases List.mem_map.mp (List.mem_dedup.mp hmem) with ⟨e, he, hec⟩
      exact ⟨e, he, hec⟩
    refine ⟨ht, ?_, ?_⟩
    · rcases hc_mem with ⟨e, he, hec⟩
      have hef := List.mem_filter.mp he
      exact ⟨e, hef.1, hef.2, hec⟩
    · intro c2 ⟨e, he, hm, hcat⟩
      refine hmax c2 ?_
      rw [List.mem_dedup]
      exact List.mem_map.mpr ⟨e, List.mem_filter.mpr ⟨he, hm⟩, hcat⟩

theorem C7_top_category_witness :
    (150 : ℤ) = category_total
      (sampleDB.expenses.filter (expense_matches 1 (some "2024-01-01") (some "2024-01-31") none))
      "Food" :=
  ((C7_top_category sampleDB 1 (some "2024-01-01") (some "2024-01-31")).2 "Food" 150
    (by decide)).1

/-- Replacing the amount of the matching `(user, month)` rows commutes with
looking the key up: the found row is the old one with the new amount. -/
theorem budget_upsert_find (l : List Budget) (user_id : Nat) (month : String) (a : ℤ) :
    (l.map (fun b => if b.user_id == user_id && b.month == month then
        { b with amount := a } else b)).find?
      (fun b => b.user_id == user_id && b.month == month) =
      (l.find? (fun b => b.user_id == user_id && b.month == month)).map
        (fun b => { b with amount := a }) := by
  induction l with
  | nil => rfl
  | cons b l ih =>
    by_cases hb : (b.user_id == user_id && b.month == month) = true
    · simp [List.find?, hb]
    · rw [List.map_cons]
      rw [show (if (b.user_id == user_id && b.month == month) = true
            then ({ b with amount := a } : Budget) else b) = b from if_neg hb]
      rw [List.find?_cons_of_neg
        (p := fun (x : Budget) => x.user_id == user_id && x.month == month) _ hb]
      rw [List.find?_cons_of_neg
        (p := fun (x : Budget) => x.user_id == user_id && x.month == month) _ hb]
      exact ih

/-- Replacing the amount of the matching rows does not change how many rows
match any key (amount replacement preserves `user_id` and `month`). -/
theorem budget_upsert_countP (l : List Budget) (user_id : Nat) (month : String) (a : ℤ)
    (u2 : Nat) (m2 : String) :
    (l.map (fun b => if b.user_id == user_id && b.month == month then
        { b with amount := a } else b)).countP
      (fun b => b.user_id == u2 && b.month == m2) =
      l.countP (fun b => b.user_id == u2 && b.month == m2) := by
  induction l with
  | nil => rfl
  | cons b l ih =>
    rw [List.map_cons, List.countP_cons, List.countP_cons, ih]
    congr 1
    by_cases hb : (b.user_id == user_id && b.month == month) = true
    · rw [if_pos hb]
    · rw [if_neg hb]

/-- One successful `set_budget` call: the at-most-one-row-per-key invariant
is preserved, the written key now has exactly one row, and `get_budget`
reads back the amount just written. -/
theorem set_budget_step (db : DB) (user_id : Nat) (month : String) (a : ℤ) (db' : DB)
    (h : set_budget db user_id month a = .ok db')
    (hinv : ∀ u m, db.budgets.countP (fun b => b.user_id == u && b.month == m) ≤ 1) :
    (∀ u m, db'.budgets.countP (fun b => b.user_id == u && b.month == m) ≤ 1)
    ∧ db'.budgets.countP (fun b => b.user_id == user_id && b.month == month) = 1
    ∧ get_budget db' user_id month = some a := by
  unfold set_budget at h
  by_cases hneg : a < 0
  · simp [hneg] at h
  · rw [if_neg hneg] at h
    by_cases hany : db.budgets.any (fun b => b.user_id == user_id && b.month == month) = true
    · rw [if_pos hany] at h
      simp only [Except.ok.injEq] at h
      subst h
      have hpos : 0 < db.budgets.countP (fun b => b.user_id == user_id && b.month == month) :=
        List.countP_pos_iff.mpr (by simpa using List.any_eq_true.mp hany)
      refine ⟨?_, ?_, ?_⟩
      · intro u m
        rw [budget_upsert_countP]
        exact hinv u m
      · rw [budget_upsert_countP]
        have := hinv user_id month
        omega
      · unfold get_budget
        rw [budget_upsert_find]
        rcases List.any_eq_true.mp hany with ⟨b, hb, hpb⟩
        have hsome : (db.budgets.find?
            (fun b => b.user_id == user_id && b.month == month)).isSome :=
          List.find?_isSome.mpr ⟨b, hb, hpb⟩
        rcases Option.isSome_iff_exists.mp hsome with ⟨b2, hb2⟩
        rw [hb2]
        rfl
    · rw [if_neg hany] at h
      simp only [Except.ok.injEq] at h
      subst h
      have hzero : db.budgets.countP (fun b => b.user_id == user_id && b.month == month) = 0 :=
        List.countP_eq_zero.mpr (fun b hb => by
          simpa using List.any_eq_false.mp (Bool.eq_false_iff.mpr hany) b hb)
      refine ⟨?_, ?_, ?_⟩
      · intro u m
        rw [List.countP_append]
        by_cases hkey : ((⟨user_id, month, a⟩ : Budget).user_id == u &&
            (⟨user_id, month, a⟩ : Budget).month == m) = true
        · simp only [Bool.and_eq_true, beq_iff_eq] at hkey
          obtain ⟨hu, hm⟩ := hkey
          subst hu
          subst hm
          rw [hzero]
          simp [List.countP_cons]
        · have : ([(⟨user_id, month, a⟩ : Budget)].countP
              (fun b => b.user_id == u && b.month == m)) = 0 := by
            simp only [List.countP_cons, List.countP_nil]
            rw [if_neg hkey]
          rw [this]
          have := hinv u m
          omega
      · rw [List.countP_append, hzero]
        simp [List.countP_cons]
      · unfold get_budget
        rw [List.find?_append]
        have hnone : db.budgets.find? (fun b => b.user_id == user_id && b.month == month) =
            none :=
          List.find?_eq_none.mpr (fun b hb =>
            by simpa using List.any_eq_false.mp (Bool.eq_false_iff.mpr hany) b hb)
        rw [hnone, Option.none_or, List.find?_cons_of_pos _ (by simp)]
        rfl

/-- Claim C8 (budget upsert invariant): starting from a store with at most
one budget row per `(user, month)` key, two successful `set_budget` calls
for the same key preserve that invariant, leave exactly one row for the
key, and `get_budget` returns the amount of the latest call (the first
call's amount being readable in between). -/
theorem C8_budget_upsert (db : DB) (user_id : Nat) (month : String) (a1 a2 : ℤ)
    (db1 db2 : DB)
    (hinv : ∀ u m, db.budgets.countP (fun b => b.user_id == u && b.month == m) ≤ 1)
    (h1 : set_budget db user_id month a1 = .ok db1)
    (h2 : set_budget db1 user_id month a2 = .ok db2) :
    (∀ u m, db1.budgets.countP (fun b => b.user_id == u && b.month == m) ≤ 1)
    ∧ db1.budgets.countP (fun b => b.user_id == user_id && b.month == month) = 1
    ∧ get_budget db1 user_id month = some a1
    ∧ (∀ u m, db2.budgets.countP (fun b => b.user_id == u && b.month == m) ≤ 1)
    ∧ db2.budgets.countP (fun b => b.user_id == user_id && b.month == month) = 1
    ∧ get_budget db2 user_id month = some a2 := by
  obtain ⟨ha, hb, hc⟩ := set_budget_step db user_id month a1 db1 h1 hinv
  obtain ⟨hd, he, hf⟩ := set_budget_step db1 user_id month a2 db2 h2 ha
  exact ⟨ha, hb, hc, hd, he, hf⟩

theorem C8_budget_upsert_witness :
    (DB.empty.budgets.countP (fun b => b.user_id == 1 && b.month == "2024-01") ≤ 1)
    ∧ ({ DB.empty with budgets := [⟨1, "2024-01", 500⟩] } : DB).budgets.countP
        (fun b => b.user_id == 1 && b.month == "2024-01") = 1
    ∧ get_budget { DB.empty with budgets := [⟨1, "2024-01", 500⟩] } 1 "2024-01" = some 500
    ∧ ({ DB.empty with budgets := [⟨1, "2024-01", 750⟩] } : DB).budgets.countP
        (fun b => b.user_id == 1 && b.month == "2024-01") = 1
    ∧ get_budget { DB.empty with budgets := [⟨1, "2024-01", 750⟩] } 1 "2024-01" = some 750 := by
  have h := C8_budget_upsert DB.empty 1 "2024-01" 500 750
    { DB.empty with budgets := [⟨1, "2024-01", 500⟩] }
    { DB.empty with budgets := [⟨1, "2024-01", 750⟩] }
    (by intro u m; simp [DB.empty]) rfl rfl
  exact ⟨by decide, h.2.1, h.2.2.1, h.2.2.2.2.1, h.2.2.2.2.2⟩

theorem C4_query_filtering_ordering_witness :
    (⟨1, 1, "2024-01-05", "Food", 100, ""⟩ : Expense) ∈
      get_expenses_df sampleDB 1 (some "2024-01-01") (some "2024-01-31") (some ["Food"]) := by
  have h := (C4_query_filtering_ordering sampleDB 1 (some "2024-01-01") (some "2024-01-31")
    (some ["Food"])).1 ⟨1, 1, "2024-01-05", "Food", 100, ""⟩
  refine h.mpr ⟨by decide, by decide, ?_, ?_, ?_⟩
  · intro s hs hne
    cases Option.some.inj hs
    decide
  · intro s hs hne
    cases Option.some.inj hs
    decide
  · intro cs hcs hne
    cases Option.some.inj hcs
    decide

end ExpenseTracker
